import Mathlib

/-!
Verification of the blockchain-scratch ledger core against its specification.

The definitions below are a shallow embedding of the Rust sources in
`blockchain-core/src` (block.rs, transaction.rs, transfer.rs / transition.rs,
difficulty.rs, ledger.rs).  Machine integers (u64 coin quantities, block
heights, nonces) are modelled as `Nat`; the one place where fixed-width
overflow is observable for the claims under study — the `u8` accumulator of
`count_first_0_bits` in difficulty.rs — is modelled with an explicit `% 256`
at every addition, matching release-mode wrapping semantics (debug builds
panic at the overflowing addition instead).  Timestamps are modelled as `Int`
(nanoseconds; only their total order is used).  Ed25519 keys, signatures and
SHA-256 digests are opaque data for every claim except the difficulty ones:
addresses and signature values are `Nat`, digests are the byte list the
difficulty check scans, and signature verification is a caller-supplied
oracle, exactly as the Rust code only ever consumes these through equality,
ordering, and the `verify` call.
-/

namespace BlockchainScratch

/-- coin.rs: `Coin(u64)`; only addition, comparison and summation are used. -/
abbrev Coin := Nat

/-- timestamp.rs: `Timestamp(DateTime<Utc>)`, totally ordered; modelled by its
nanosecond value. -/
abbrev Timestamp := Int

/-- account.rs: `Address` (an Ed25519 public key); opaque, compared by
equality only. -/
abbrev Address := Nat

/-- signature.rs: `Signature` (an Ed25519 signature); opaque, compared by
equality only. -/
abbrev Sig := Nat

/-- digest.rs: `BlockDigest([u8; 32])`, kept as the list of its bytes. -/
abbrev BlockDigest := List Nat

/-- transfer.rs / transition.rs: `Transfer` — sender, receiver, quantity,
timestamp and the sender's signature. -/
structure Transfer where
  sender : Address
  receiver : Address
  quantity : Coin
  timestamp : Timestamp
  sign : Sig
deriving DecidableEq

/-- transfer.rs / transition.rs: `Generation` — new issue of coin to an
address. -/
structure Generation where
  receiver : Address
  quantity : Coin
  timestamp : Timestamp
  sign : Sig
deriving DecidableEq

/-- transfer.rs `TransactionBranch` / transition.rs `Transition`: the sum of
`Transfer` and `Generation` (the two Rust types are field-for-field
identical). -/
inductive Transition where
  | transfer : Transfer → Transition
  | generation : Generation → Transition
deriving DecidableEq

namespace Transition

/-- `TransactionBranch::receiver`. -/
def receiver : Transition → Address
  | .transfer t => t.receiver
  | .generation g => g.receiver

/-- `TransactionBranch::quantity`. -/
def quantity : Transition → Coin
  | .transfer t => t.quantity
  | .generation g => g.quantity

/-- `TransactionBranch::timestamp`. -/
def timestamp : Transition → Timestamp
  | .transfer t => t.timestamp
  | .generation g => g.timestamp

/-- `TransactionBranch::sign`. -/
def sign : Transition → Sig
  | .transfer t => t.sign
  | .generation g => g.sign

/-- `TransactionBranch::try_as_transfer`. -/
def try_as_transfer : Transition → Option Transfer
  | .transfer t => some t
  | .generation _ => none

end Transition

/-- transaction.rs: `Transaction` — contractor, inputs, outputs, timestamp,
contractor's sign (the verification phantom parameters carry no data). -/
structure Transaction where
  contractor : Address
  inputs : List Transition
  outputs : List Transition
  timestamp : Timestamp
  sign : Sig
deriving DecidableEq

/-- transaction.rs: `TransactionError`. -/
inductive TransactionError where
  | Transfer
  | EmptyOutput
  | SenderMismatch
  | ReceiverMismatch
  | QuantityMismatch
  | InvalidTimestamp
  | InvalidSign
deriving DecidableEq

/-- transaction.rs `build_signature_source`: the data covered by the
contractor's signature — contractor, inputs, outputs, timestamp, in that
order (the byte-level little-endian encoding is abstracted to the tuple). -/
def Transaction.signature_source (tx : Transaction) :
    Address × List Transition × List Transition × Timestamp :=
  (tx.contractor, tx.inputs, tx.outputs, tx.timestamp)

/-- The signature-verification oracle standing for
`Address::verify(message, sign)` applied to a transaction's signature
source. -/
abbrev SigOracle :=
  Address → Address × List Transition × List Transition × Timestamp → Sig → Bool

/-- transaction.rs `Transaction::verify_transaction` (lines 84–146), check
for check in source order. -/
def Transaction.verify_transaction (sv : SigOracle) (tx : Transaction) :
    Except TransactionError Transaction :=
  -- At least 1 output is required
  if tx.outputs.isEmpty then .error .EmptyOutput
  -- Input's receiver = contractor
  else if !tx.inputs.isEmpty && tx.inputs.any (fun i => i.receiver ≠ tx.contractor) then
    .error .SenderMismatch
  -- Transfer output's sender = contractor (generations are not checked)
  else if (tx.outputs.filterMap Transition.try_as_transfer).any
      (fun t => t.sender ≠ tx.contractor) then
    .error .ReceiverMismatch
  else
    let input_sum := (tx.inputs.map Transition.quantity).sum
    let output_sum_except_gen :=
      ((tx.outputs.filterMap Transition.try_as_transfer).map Transfer.quantity).sum
    if input_sum < output_sum_except_gen then .error .QuantityMismatch
    else if (tx.inputs ++ tx.outputs).any (fun t => tx.timestamp < t.timestamp) then
      .error .InvalidTimestamp
    else if !sv tx.contractor tx.signature_source tx.sign then .error .InvalidSign
    else .ok tx

/-- difficulty.rs `count_first_0_bit`: leading zero bits of one byte,
most-significant bit first.  The Rust loop walks `flag` through
128, 64, …, 1; the walk is unrolled into the flag list. -/
def count_bits_from (x : Nat) : List Nat → Nat
  | [] => 0
  | f :: rest => if x &&& f = 0 then 1 + count_bits_from x rest else 0

/-- difficulty.rs `count_first_0_bit`. -/
def count_first_0_bit (x : Nat) : Nat :=
  count_bits_from x [128, 64, 32, 16, 8, 4, 2, 1]

/-- difficulty.rs `count_first_0_bits`, with the `u8` accumulator made
explicit: every addition wraps modulo 256 (in a debug build the wrapping
addition panics instead). -/
def count_first_0_bits_loop (count : Nat) : List Nat → Nat
  | [] => count
  | byte :: rest =>
    if count_first_0_bit byte = 8 then count_first_0_bits_loop ((count + 8) % 256) rest
    else (count + count_first_0_bit byte) % 256

/-- difficulty.rs `count_first_0_bits`. -/
def count_first_0_bits (bytes : List Nat) : Nat :=
  count_first_0_bits_loop 0 bytes

/-- difficulty.rs `Difficulty::verify_bytes` / `verify_digest`:
`count_first_0_bits(bytes) >= d`. -/
def verify_digest (d : Nat) (bytes : List Nat) : Bool :=
  decide (d ≤ count_first_0_bits bytes)

/-- Spec-side reference definition, following the spec's words
("`Difficulty.verify(digest) = leading_zero_bits(digest) ≥ d`", bits
accumulating across byte boundaries): the exact number of leading zero bits
of a digest, scanning bytes MSB-first, with no fixed-width wrap.  Stated
alongside `count_first_0_bits` to compare the code's wrapped counter with
the specified count. -/
def spec_leading_zero_bits : List Nat → Nat
  | [] => 0
  | byte :: rest =>
    if count_first_0_bit byte = 8 then 8 + spec_leading_zero_bits rest
    else count_first_0_bit byte

/-- block.rs: `Block` — the six phantom verification flags carry no data and
are dropped. -/
structure Block where
  height : Nat
  transactions : List Transaction
  timestamp : Timestamp
  previous_digest : BlockDigest
  difficulty : Nat
  nonce : Nat
  digest : BlockDigest
deriving DecidableEq

/-- block.rs: `BlockError`. -/
inductive BlockError where
  | Transaction : TransactionError → BlockError
  | TransactionQuantity
  | TransactionTimestamp
  | Utxo
  | Chain
  | Digest
  | InsufficientDifficulty
  | PoWFailure
deriving DecidableEq

/-- block.rs `BlockHeight::previous`: `checked_sub(1)`. -/
def heightPrevious (h : Nat) : Option Nat :=
  if h = 0 then none else some (h - 1)

namespace Block

/-- block.rs `Block::inputs`: inputs of all transactions, flattened. -/
def block_inputs (b : Block) : List Transition :=
  b.transactions.flatMap Transaction.inputs

/-- block.rs `Block::outputs`: outputs of all transactions, flattened. -/
def block_outputs (b : Block) : List Transition :=
  b.transactions.flatMap Transaction.outputs

/-- Sum of the quantities of all transaction inputs of the block
(`in_qty` in `verify_transaction_relation`). -/
def in_qty (b : Block) : Coin :=
  (b.block_inputs.map Transition.quantity).sum

/-- Sum of the quantities of all transaction outputs of the block
(`o_qty` in `verify_transaction_relation`). -/
def o_qty (b : Block) : Coin :=
  (b.block_outputs.map Transition.quantity).sum

end Block

/-- The `is_sorted` check of the `is_sorted` crate applied to the
transactions' timestamps: adjacent pairs non-decreasing. -/
def is_sorted_ts : List Timestamp → Bool
  | a :: b :: rest => decide (a ≤ b) && is_sorted_ts (b :: rest)
  | _ => true

/-- block.rs `Block::verify_transaction_relation` (lines 236–290): transaction
timestamps at most the block timestamp, transactions sorted by timestamp,
and `in_qty + gen_rule(height) = o_qty`; on success the block is returned
with all fields unchanged. -/
def Block.verify_transaction_relation (gen_rule : Nat → Coin) (b : Block) :
    Except BlockError Block :=
  -- Timestamp check
  if b.transactions.any (fun tx => b.timestamp < tx.timestamp) then
    .error .TransactionTimestamp
  -- Timestamp sorted check
  else if !is_sorted_ts (b.transactions.map Transaction.timestamp) then
    .error .TransactionTimestamp
  -- Quantity check
  else if b.in_qty + gen_rule b.height ≠ b.o_qty then .error .TransactionQuantity
  else .ok b

/-- block.rs `Block::verify_transaction_itself` (lines 209–232): every
transaction must pass `Transaction::verify`; the per-transition signature
checks of `verify_branch` are folded into the oracle. -/
def Block.verify_transaction_itself (sv : SigOracle) (b : Block) :
    Except BlockError Block :=
  match b.transactions.mapM (Transaction.verify_transaction sv) with
  | .ok transactions => .ok { b with transactions := transactions }
  | .error e => .error (.Transaction e)

/-- block.rs `Block::verify_previous_block` (lines 322–370): genesis blocks
are accepted unconditionally; otherwise both history lookups must return
`some` for the previous height, the digest must equal `previous_digest` and
the timestamp must be strictly earlier than the block's. -/
def Block.verify_previous_block (digest_history : Nat → Option BlockDigest)
    (timestamp_history : Nat → Option Timestamp) (b : Block) :
    Except BlockError Block :=
  match heightPrevious b.height with
  | some h =>
    match digest_history h, timestamp_history h with
    | some digest, some stamp =>
      if digest = b.previous_digest ∧ stamp < b.timestamp then .ok b
      else .error .Chain
    | some _, none => .error .Chain
    | none, some _ => .error .Chain
    | none, none => .error .Chain
  -- This is genesis block
  | none => .ok b

/-- block.rs `Block::verify_difficulty` (lines 405–428): reject when the
block's stated difficulty is below the expected one, then check the digest
against the EXPECTED difficulty. -/
def Block.verify_difficulty (expected : Nat) (b : Block) :
    Except BlockError Block :=
  if b.difficulty < expected then .error .InsufficientDifficulty
  else if verify_digest expected b.digest then .ok b
  else .error .PoWFailure

/-- block.rs `Block::verify_utxo` (lines 294–318): delegate to the judge. -/
def Block.verify_utxo (judge : List Transaction → Bool) (b : Block) :
    Except BlockError Block :=
  if judge b.transactions then .ok b else .error .Utxo

/-- ledger.rs: `TransferHistoryError`. -/
inductive TransferHistoryError where
  | DoubleSpending
  | Collision
  | Unlisted
deriving DecidableEq

/-- ledger.rs: `LedgerError`. -/
inductive LedgerError where
  | IsolatedBlock
  | DuplicatedBlock
  | DuplicatedGenesisBlock
  | Transfer : TransferHistoryError → LedgerError
  | Block : BlockError → LedgerError
deriving DecidableEq

/-- The inner input loop of `TransferHistory::push_block` (ledger.rs lines
69–74): each input must be found in the live set by full structural equality
and is then removed (`retain(|u| u != input)` drops every equal element);
a missing input aborts with `Unlisted`. -/
def process_inputs (utxos : List Transition) :
    List Transition → Except TransferHistoryError (List Transition)
  | [] => .ok utxos
  | input :: rest =>
    if utxos.contains input then
      process_inputs (utxos.filter (fun u => u != input)) rest
    else .error .Unlisted

/-- The inner output loop of `TransferHistory::push_block` (ledger.rs lines
76–81): an output already present (full structural equality) aborts with
`Collision`, otherwise it is appended to the live set. -/
def process_outputs (utxos : List Transition) :
    List Transition → Except TransferHistoryError (List Transition)
  | [] => .ok utxos
  | output :: rest =>
    if utxos.contains output then .error .Collision
    else process_outputs (utxos ++ [output]) rest

/-- One transaction of `TransferHistory::push_block`: inputs then outputs. -/
def process_tx (utxos : List Transition) (tx : Transaction) :
    Except TransferHistoryError (List Transition) :=
  match process_inputs utxos tx.inputs with
  | .error e => .error e
  | .ok utxos2 => process_outputs utxos2 tx.outputs

/-- The transaction loop of `TransferHistory::push_block`. -/
def process_txs (utxos : List Transition) :
    List Transaction → Except TransferHistoryError (List Transition)
  | [] => .ok utxos
  | tx :: rest =>
    match process_tx utxos tx with
    | .error e => .error e
    | .ok utxos2 => process_txs utxos2 rest

/-- itertools `all_unique` on the input signatures. -/
def all_unique : List Sig → Bool
  | [] => true
  | x :: rest => !rest.contains x && all_unique rest

/-- ledger.rs `TransferHistory::push_block` (lines 55–88): `DoubleSpending`
when the block's own inputs repeat a signature, otherwise replay the
transactions; on success the new live set is returned (the Rust method
installs it into `self.utxos`; on error the history is left unchanged). -/
def push_block (utxos : List Transition) (b : Block) :
    Except TransferHistoryError (List Transition) :=
  if !all_unique (b.block_inputs.map Transition.sign) then .error .DoubleSpending
  else process_txs utxos b.transactions

/-- ledger.rs `TransferHistory::is_utxo`: membership by signature. -/
def is_utxo (utxos : List Transition) (t : Transition) : Bool :=
  utxos.any (fun u => u.sign == t.sign)

/-- The UTXO judge closure passed to `verify_utxo` in `Ledger::verify_block`
(ledger.rs lines 206–219): every input live, no output live. -/
def utxo_judge (utxos : List Transition) (transactions : List Transaction) : Bool :=
  (transactions.flatMap Transaction.inputs).all (fun i => is_utxo utxos i) &&
  (transactions.flatMap Transaction.outputs).all (fun o => !is_utxo utxos o)

/-- A node of the slab_tree inside `Ledger`: its id, its parent's id (none
for the root), and the stored block. -/
structure LedgerNode where
  id : Nat
  parentId : Option Nat
  block : Block
deriving DecidableEq

/-- ledger.rs: `Ledger` — the block tree (as a parent-pointer node list,
newest node first) and the `digest → node id` map (newest entry first, as
the authoritative binding, like `HashMap::insert` replacing old entries). -/
structure Ledger where
  nodes : List LedgerNode
  rootId : Option Nat
  digest_map : List (BlockDigest × Nat)
  nextId : Nat
deriving DecidableEq

namespace Ledger

/-- ledger.rs `Ledger::new`. -/
def new : Ledger := ⟨[], none, [], 0⟩

/-- `slab_tree::Tree::get` by node id. -/
def node_by_id (L : Ledger) (id : Nat) : Option LedgerNode :=
  L.nodes.find? (fun e => e.id == id)

/-- ledger.rs `Ledger::node_by_digest` / `node_mut_by_digest`:
`digest_map.get(digest).and_then(|id| tree.get(id))`. -/
def node_by_digest (L : Ledger) (d : BlockDigest) : Option LedgerNode :=
  (L.digest_map.lookup d).bind L.node_by_id

/-- The children of a node: every node whose parent pointer names it. -/
def children (L : Ledger) (id : Nat) : List LedgerNode :=
  L.nodes.filter (fun e => e.parentId == some id)

/-- ledger.rs `Ledger::entry` (lines 224–260). -/
def entry (L : Ledger) (b : Block) : Except LedgerError Ledger :=
  match heightPrevious b.height with
  | some previous_height =>
    match L.node_by_digest b.previous_digest with
    | none => .error .IsolatedBlock
    | some previous_node =>
      -- Height constraint
      if previous_node.block.height ≠ previous_height then .error .IsolatedBlock
      -- Deny duplication
      else if (L.children previous_node.id).any
          (fun child => child.block.digest == b.digest) then
        .error .DuplicatedBlock
      else
        .ok { L with
              nodes := ⟨L.nextId, some previous_node.id, b⟩ :: L.nodes
              digest_map := (b.digest, L.nextId) :: L.digest_map
              nextId := L.nextId + 1 }
  -- Given block is genesis block
  | none =>
    match L.rootId with
    | none =>
      .ok { L with
            nodes := ⟨L.nextId, none, b⟩ :: L.nodes
            rootId := some L.nextId
            digest_map := (b.digest, L.nextId) :: L.digest_map
            nextId := L.nextId + 1 }
    | some _ => .error .DuplicatedGenesisBlock

/-- slab_tree `NodeRef::ancestors` materialised: walk the parent pointers
starting AT the given id (callers pass the parent's id, since `ancestors`
yields the parent first and never the node itself).  Fuel bounds the walk. -/
def ancestor_blocks (L : Ledger) : Nat → Option Nat → List Block
  | _, none => []
  | 0, some _ => []
  | fuel + 1, some id =>
    match L.node_by_id id with
    | none => []
    | some e => e.block :: L.ancestor_blocks fuel e.parentId

/-- The replay loop of `Ledger::verify_block`: fold `push_block` over a
root-first list of blocks, starting from an empty history. -/
def replay_blocks (utxos : List Transition) :
    List Block → Except TransferHistoryError (List Transition)
  | [] => .ok utxos
  | b :: rest =>
    match push_block utxos b with
    | .error e => .error e
    | .ok utxos2 => replay_blocks utxos2 rest

/-- The previous-block judge closure of `Ledger::verify_block` (ledger.rs
lines 176–183): for a non-genesis block the node found by `previous_digest`
must exist and carry the previous height; a genesis block is accepted
exactly when no node with that digest exists.  No timestamp appears. -/
def previous_block_judge (L : Ledger) (b : Block) : Bool :=
  let previous_block := L.node_by_digest b.previous_digest
  match heightPrevious b.height with
  | some previous_height =>
    match previous_block with
    | some p => p.block.height == previous_height
    | none => false
  | none => previous_block.isNone

/-- ledger.rs `Ledger::verify_block` (lines 169–222): stage P via the judge
above (a false judge is `BlockError::Chain`, lifted to `LedgerError::Block`),
then replay the ANCESTORS of the previous node (slab_tree `ancestors` starts
at its parent, so the previous block itself is not replayed), reversed to
root-first order, and run stage U with the resulting history. -/
def verify_block (L : Ledger) (b : Block) : Except LedgerError Block :=
  let previous_block := L.node_by_digest b.previous_digest
  if !L.previous_block_judge b then .error (.Block .Chain)
  else
    let blocks : List Block :=
      match previous_block with
      | some e => (L.ancestor_blocks L.nodes.length e.parentId).reverse
      | none => []
    match replay_blocks [] blocks with
    | .error e => .error (.Transfer e)
    | .ok history =>
      match b.verify_utxo (utxo_judge history) with
      | .ok blk => .ok blk
      | .error e => .error (.Block e)

/-- ledger.rs `Ledger::search_latest_block`: `digest_map.values()` iterated in
the `HashMap`'s implementation-defined order — taken here as the parameter
`order` — mapped through the tree and folded by `max_by_key(height)` (which
keeps the LAST maximum). -/
def blocks_in_order (L : Ledger) (order : List Nat) : List Block :=
  order.filterMap (fun id => (L.node_by_id id).map (fun e => e.block))

end Ledger

/-- Rust `Iterator::max_by_key` on block height: returns the last element
attaining the maximal height, `none` on the empty list. -/
def max_by_height : List Block → Option Block
  | [] => none
  | b :: rest =>
    match max_by_height rest with
    | none => some b
    | some m => if b.height ≤ m.height then some m else some b

/-- ledger.rs `Ledger::search_latest_block` (lines 148–153), with the map
iteration order as an explicit parameter. -/
def Ledger.search_latest_block (L : Ledger) (order : List Nat) : Option Block :=
  max_by_height (L.blocks_in_order order)

/-- Sum of all input quantities of a transaction list (`in_qty` in
`BlockSource::new`, block.rs lines 66–76). -/
def txs_in_qty (txs : List Transaction) : Coin :=
  ((txs.flatMap Transaction.inputs).map Transition.quantity).sum

/-- Sum of all output quantities of a transaction list (`o_qty` in
`BlockSource::new`). -/
def txs_o_qty (txs : List Transaction) : Coin :=
  ((txs.flatMap Transaction.outputs).map Transition.quantity).sum

/-- A pure coinbase in the sense of the spec: empty inputs and a single
`Generation` output. -/
def Transaction.is_pure_coinbase (tx : Transaction) : Bool :=
  tx.inputs.isEmpty &&
    match tx.outputs with
    | [Transition.generation _] => true
    | _ => false

/-- The generation transaction built inside `BlockSource::new` (block.rs
lines 66–84): empty inputs, one `Generation` output of quantity `r_qty` to
the reward receiver.  Its timestamp and the two signatures produced by
`offer` are opaque inputs here. -/
def mk_generation_tx (reward_receiver : Address) (r_qty : Coin)
    (stamp : Timestamp) (s : Sig) : Transaction :=
  { contractor := reward_receiver
    inputs := []
    outputs := [Transition.generation ⟨reward_receiver, r_qty, stamp, s⟩]
    timestamp := stamp
    sign := s }

/-- The transaction list assembled by `BlockSource::new` (block.rs lines
66–90): append the generation transaction of quantity
`gen_rule(height) + in_qty − o_qty` and sort everything by timestamp
(`sorted_by_key` is a stable sort, modelled by insertion sort). -/
def block_source_transactions (gen_rule : Nat → Coin) (height : Nat)
    (transactions : List Transaction) (reward_receiver : Address)
    (stamp : Timestamp) (s : Sig) : List Transaction :=
  let r_qty := gen_rule height + txs_in_qty transactions - txs_o_qty transactions
  (transactions ++ [mk_generation_tx reward_receiver r_qty stamp s]).insertionSort
    (fun a b => a.timestamp ≤ b.timestamp)

/-! Concrete data used by the counterexamples and scenario evaluations. -/

/-- A signature oracle that accepts everything: stands for data that was
honestly signed (any wellformed content can be signed by its owner). -/
def triv_oracle : SigOracle := fun _ _ _ => true

/-- The all-zero 32-byte digest (256 leading zero bits). -/
def zero_digest : BlockDigest := List.replicate 32 0

/-- A 32-byte digest starting with byte 0x40: exactly one leading zero bit. -/
def one_zero_digest : BlockDigest := 64 :: List.replicate 31 0

/-- A block whose stated difficulty (2) exceeds the leading zero bits of its
digest (1). -/
def b6 : Block :=
  { height := 0, transactions := [], timestamp := 0, previous_digest := []
    difficulty := 2, nonce := 0, digest := one_zero_digest }

/-- A transaction with a real input, a transfer output and a generation
output — NOT a pure coinbase, yet it passes the per-transaction checks. -/
def tx7 : Transaction :=
  { contractor := 1
    inputs := [.transfer ⟨0, 1, 5, 0, 1⟩]
    outputs := [.transfer ⟨1, 2, 3, 0, 2⟩, .generation ⟨1, 3, 0, 3⟩]
    timestamp := 0
    sign := 4 }

/-- A block containing only `tx7`: no pure coinbase at all, yet stages T and
TR pass under the reward rule `fun _ => 1`. -/
def b7 : Block :=
  { height := 0, transactions := [tx7], timestamp := 1, previous_digest := []
    difficulty := 0, nonce := 0, digest := [7] }

/-- The transition `t` of the double-spending scenario: created by block N. -/
def t_gen : Transition := .generation ⟨1, 5, 0, 10⟩

/-- Output of block N+1 (spending `t_gen`). -/
def t_two : Transition := .transfer ⟨1, 2, 5, 1, 11⟩

/-- Output of block N+2 (spending `t_gen` again). -/
def t_three : Transition := .transfer ⟨1, 3, 5, 2, 12⟩

/-- The coinbase-style transaction of block N, creating `t_gen`. -/
def tx_n : Transaction := ⟨1, [], [t_gen], 0, 100⟩

/-- The transaction of block N+1, consuming `t_gen`. -/
def tx_n1 : Transaction := ⟨1, [t_gen], [t_two], 1, 101⟩

/-- The transaction of block N+2, consuming `t_gen` a second time. -/
def tx_n2 : Transaction := ⟨1, [t_gen], [t_three], 2, 102⟩

/-- Block N (genesis of the scenario). -/
def block_n : Block := ⟨0, [tx_n], 10, [0], 0, 0, [1]⟩

/-- Block N+1, child of N. -/
def block_n1 : Block := ⟨1, [tx_n1], 20, [1], 0, 0, [2]⟩

/-- Block N+2, child of N+1, double-spending `t_gen`. -/
def block_n2 : Block := ⟨2, [tx_n2], 30, [2], 0, 0, [3]⟩

/-- Ledger holding block N as root. -/
def ledger_n : Ledger := ⟨[⟨0, none, block_n⟩], some 0, [([1], 0)], 1⟩

/-- Ledger holding block N (root) and block N+1 (its child). -/
def ledger_n1 : Ledger :=
  ⟨[⟨1, some 0, block_n1⟩, ⟨0, none, block_n⟩], some 0, [([2], 1), ([1], 0)], 2⟩

/-- Two distinct blocks of equal height for the latest-block tie. -/
def blk_a : Block := ⟨1, [], 0, [0], 0, 0, [10]⟩

/-- Second block of the tie, distinguished from `blk_a` by its digest. -/
def blk_b : Block := ⟨1, [], 0, [0], 0, 0, [11]⟩

/-- A ledger holding `blk_a` (inserted first) and `blk_b`. -/
def ledger9 : Ledger :=
  ⟨[⟨1, some 0, blk_b⟩, ⟨0, none, blk_a⟩], some 0, [([11], 1), ([10], 0)], 2⟩

/-- Genesis block for the timestamp scenario of the ledger chain judge: its
timestamp is 100. -/
def g10 : Block := ⟨0, [⟨1, [], [.generation ⟨1, 5, 0, 50⟩], 0, 500⟩], 100, [0], 0, 0, [21]⟩

/-- Child of `g10` whose timestamp (50) is EARLIER than its parent's (100). -/
def b10 : Block := ⟨1, [⟨1, [], [.generation ⟨1, 7, 0, 51⟩], 0, 501⟩], 50, [21], 0, 0, [22]⟩

/-- A block whose previous digest names nobody in `ledger10`. -/
def b10_bad : Block := ⟨1, [], 60, [99], 0, 0, [23]⟩

/-- Ledger holding `g10` as root. -/
def ledger10 : Ledger := ⟨[⟨0, none, g10⟩], some 0, [([21], 0)], 1⟩

/-! ## Theorems -/

/-- C1: `verify_transaction_relation(R)` returns `Ok` iff (a) every
transaction's timestamp is at most the block's, (b) the transactions are
sorted by non-decreasing timestamp, and (c) the sum of input quantities plus
`R(height)` equals the sum of output quantities; when (a) or (b) fails it
returns `TransactionTimestamp`, when only (c) fails it returns
`TransactionQuantity`; on success the block is returned unchanged. -/
theorem verify_transaction_relation_correct (R : Nat → Coin) (b : Block) :
    (b.verify_transaction_relation R = .ok b ↔
      ((∀ tx ∈ b.transactions, tx.timestamp ≤ b.timestamp) ∧
        is_sorted_ts (b.transactions.map Transaction.timestamp) = true ∧
        b.in_qty + R b.height = b.o_qty)) ∧
    ((¬ (∀ tx ∈ b.transactions, tx.timestamp ≤ b.timestamp) ∨
        ¬ is_sorted_ts (b.transactions.map Transaction.timestamp) = true) →
      b.verify_transaction_relation R = .error .TransactionTimestamp) ∧
    ((∀ tx ∈ b.transactions, tx.timestamp ≤ b.timestamp) →
      is_sorted_ts (b.transactions.map Transaction.timestamp) = true →
      b.in_qty + R b.height ≠ b.o_qty →
      b.verify_transaction_relation R = .error .TransactionQuantity) := by
  have hany : (b.transactions.any (fun tx => decide (b.timestamp < tx.timestamp)) = false) ↔
      (∀ tx ∈ b.transactions, tx.timestamp ≤ b.timestamp) := by
    simp [not_lt]
  unfold Block.verify_transaction_relation
  by_cases hA : ∀ tx ∈ b.transactions, tx.timestamp ≤ b.timestamp
  · have hA' : (b.transactions.any fun tx => decide (b.timestamp < tx.timestamp)) = false :=
      hany.mpr hA
    by_cases hS : is_sorted_ts (b.transactions.map Transaction.timestamp) = true
    · by_cases hQ : b.in_qty + R b.height = b.o_qty
      · simp [hA', hS, hQ]
        exact hA
      · simp [hA', hS, hQ]
        exact hA
    · have hS' : is_sorted_ts (b.transactions.map Transaction.timestamp) = false := by
        cases h : is_sorted_ts (b.transactions.map Transaction.timestamp)
        · rfl
        · exact absurd h hS
      simp [hA', hS', hA]
  · have hA' : (b.transactions.any fun tx => decide (b.timestamp < tx.timestamp)) = true := by
      cases h : b.transactions.any fun tx => decide (b.timestamp < tx.timestamp)
      · exact absurd (hany.mp h) hA
      · rfl
    simp [hA', hA]

/-- C1 witness: the concrete block `b7` satisfies all three conditions under
the reward rule `fun _ => 1` and is accepted unchanged. -/
theorem verify_transaction_relation_correct_witness :
    Block.verify_transaction_relation (fun _ => 1) b7 = .ok b7 :=
  (verify_transaction_relation_correct (fun _ => 1) b7).1.mpr (by decide)

/-- C4: `verify_previous_block` accepts unconditionally in the genesis case;
otherwise it accepts iff both lookups return `some` for the previous height,
the looked-up digest equals `previous_digest`, and the looked-up timestamp is
strictly earlier than the block's; every failing case is the error
`Chain`. -/
theorem verify_previous_block_correct (F1 : Nat → Option BlockDigest)
    (F2 : Nat → Option Timestamp) (b : Block) :
    (b.height = 0 → b.verify_previous_block F1 F2 = .ok b) ∧
    (∀ h, heightPrevious b.height = some h →
      ((b.verify_previous_block F1 F2 = .ok b ↔
        (∃ d s, F1 h = some d ∧ F2 h = some s ∧ d = b.previous_digest ∧
          s < b.timestamp)) ∧
       (b.verify_previous_block F1 F2 = .ok b ∨
        b.verify_previous_block F1 F2 = .error .Chain))) := by
  constructor
  · intro h0
    unfold Block.verify_previous_block
    simp [heightPrevious, h0]
  · intro h hh
    unfold Block.verify_previous_block
    rw [hh]
    rcases hd : F1 h with _ | d
    all_goals rcases hs : F2 h with _ | s
    · simp [hd, hs]
    · simp [hd, hs]
    · simp [hd, hs]
    · simp only [hd, hs]
      by_cases hc : d = b.previous_digest ∧ s < b.timestamp
      · refine ⟨?_, Or.inl (by rw [if_pos hc])⟩
        rw [if_pos hc]
        exact ⟨fun _ => ⟨d, s, rfl, rfl, hc.1, hc.2⟩, fun _ => rfl⟩
      · refine ⟨?_, Or.inr (by rw [if_neg hc])⟩
        rw [if_neg hc]
        constructor
        · intro hcontra
          exact absurd hcontra (by simp)
        · rintro ⟨d', s', hd', hs', hdd, hss⟩
          have hd2 : d = d' := by injection hd'
          have hs2 : s = s' := by injection hs'
          subst hd2
          subst hs2
          exact absurd ⟨hdd, hss⟩ hc

/-- C4 witness: the genesis block `b7` (height 0) is accepted no matter what
the lookups return. -/
theorem verify_previous_block_correct_witness :
    Block.verify_previous_block (fun _ => none) (fun _ => none) b7 = .ok b7 :=
  (verify_previous_block_correct (fun _ => none) (fun _ => none) b7).1 rfl

/-- C5: on the all-zero 32-byte digest the code's `u8` leading-zero counter
wraps (256 mod 256 = 0), so `Difficulty(1).verify` returns `false`, while the
specified leading-zero-bit count is 256 ≥ 1 — the claimed equivalence
`verify(g) = (leading_zero_bits(g) ≥ d)` fails at this digest. -/
theorem difficulty_allzero_digest_wraps :
    verify_digest 1 zero_digest = false ∧
    count_first_0_bits zero_digest = 0 ∧
    spec_leading_zero_bits zero_digest = 256 ∧
    ¬ (verify_digest 1 zero_digest = true ↔ 1 ≤ spec_leading_zero_bits zero_digest) := by
  exact ⟨rfl, rfl, by decide, by decide⟩

/-- C6 (amended): `verify_difficulty(e)` rejects with
`InsufficientDifficulty` when the stated difficulty is below `e`, otherwise
accepts or rejects with `PoWFailure` according to `e.verify(digest)`; a
passing block therefore has at least `e` leading zero bits (as counted by the
code) and stated difficulty at least `e` — nothing relates the digest to the
block's OWN difficulty. -/
theorem verify_difficulty_correct (e : Nat) (b : Block) :
    (b.difficulty < e → b.verify_difficulty e = .error .InsufficientDifficulty) ∧
    (e ≤ b.difficulty → verify_digest e b.digest = true →
      b.verify_difficulty e = .ok b) ∧
    (e ≤ b.difficulty → verify_digest e b.digest = false →
      b.verify_difficulty e = .error .PoWFailure) ∧
    (b.verify_difficulty e = .ok b →
      e ≤ b.difficulty ∧ e ≤ count_first_0_bits b.digest) := by
  unfold Block.verify_difficulty
  refine ⟨fun hlt => by simp [hlt], fun hge hv => ?_, fun hge hv => ?_, fun hok => ?_⟩
  · simp [Nat.not_lt.mpr hge, hv]
  · simp [Nat.not_lt.mpr hge, hv]
  · by_cases hlt : b.difficulty < e
    · simp [hlt] at hok
    · by_cases hv : verify_digest e b.digest = true
      · refine ⟨Nat.not_lt.mp hlt, ?_⟩
        have := of_decide_eq_true hv
        exact this
      · simp [hlt, hv] at hok

/-- C6 counterexample: the block `b6` states difficulty 2 but its digest has
only one leading zero bit; it still passes `verify_difficulty(1)`, so a fully
verified block need NOT satisfy its own stated difficulty. -/
theorem verify_difficulty_own_difficulty_unchecked :
    Block.verify_difficulty 1 b6 = .ok b6 ∧ b6.difficulty = 2 ∧
    count_first_0_bits b6.digest = 1 ∧ spec_leading_zero_bits b6.digest = 1 ∧
    ¬ (b6.difficulty ≤ count_first_0_bits b6.digest) ∧
    ¬ (b6.difficulty ≤ spec_leading_zero_bits b6.digest) := by
  exact ⟨rfl, rfl, by decide, by decide, by decide, by decide⟩

/-- C6 witness: `b6` passes `verify_difficulty(1)` through the amended
theorem's acceptance case. -/
theorem verify_difficulty_correct_witness :
    Block.verify_difficulty 1 b6 = .ok b6 :=
  (verify_difficulty_correct 1 b6).2.1 (by decide) (by decide)

/-- C2: `verify_transaction` succeeds iff (1) outputs are non-empty, (2)
every input's receiver is the contractor, (3) every output Transfer's sender
is the contractor, (4) the input sum covers the Transfer-output sum, (5) all
embedded timestamps are at most the transaction's, and (6) the contractor's
signature verifies over (contractor, inputs, outputs, timestamp); the checks
are evaluated in this order and the first violated one names the error. -/
theorem verify_transaction_correct (sv : SigOracle) (tx : Transaction) :
    (tx.verify_transaction sv = .ok tx ↔
      (tx.outputs ≠ [] ∧
        (∀ i ∈ tx.inputs, i.receiver = tx.contractor) ∧
        (∀ t ∈ tx.outputs.filterMap Transition.try_as_transfer,
          t.sender = tx.contractor) ∧
        ((tx.outputs.filterMap Transition.try_as_transfer).map Transfer.quantity).sum ≤
          (tx.inputs.map Transition.quantity).sum ∧
        (∀ t ∈ tx.inputs ++ tx.outputs, t.timestamp ≤ tx.timestamp) ∧
        sv tx.contractor tx.signature_source tx.sign = true)) ∧
    (tx.outputs = [] → tx.verify_transaction sv = .error .EmptyOutput) ∧
    (tx.outputs ≠ [] → ¬ (∀ i ∈ tx.inputs, i.receiver = tx.contractor) →
      tx.verify_transaction sv = .error .SenderMismatch) ∧
    (tx.outputs ≠ [] → (∀ i ∈ tx.inputs, i.receiver = tx.contractor) →
      ¬ (∀ t ∈ tx.outputs.filterMap Transition.try_as_transfer,
          t.sender = tx.contractor) →
      tx.verify_transaction sv = .error .ReceiverMismatch) ∧
    (tx.outputs ≠ [] → (∀ i ∈ tx.inputs, i.receiver = tx.contractor) →
      (∀ t ∈ tx.outputs.filterMap Transition.try_as_transfer,
        t.sender = tx.contractor) →
      ¬ (((tx.outputs.filterMap Transition.try_as_transfer).map Transfer.quantity).sum ≤
          (tx.inputs.map Transition.quantity).sum) →
      tx.verify_transaction sv = .error .QuantityMismatch) ∧
    (tx.outputs ≠ [] → (∀ i ∈ tx.inputs, i.receiver = tx.contractor) →
      (∀ t ∈ tx.outputs.filterMap Transition.try_as_transfer,
        t.sender = tx.contractor) →
      ((tx.outputs.filterMap Transition.try_as_transfer).map Transfer.quantity).sum ≤
        (tx.inputs.map Transition.quantity).sum →
      ¬ (∀ t ∈ tx.inputs ++ tx.outputs, t.timestamp ≤ tx.timestamp) →
      tx.verify_transaction sv = .error .InvalidTimestamp) ∧
    (tx.outputs ≠ [] → (∀ i ∈ tx.inputs, i.receiver = tx.contractor) →
      (∀ t ∈ tx.outputs.filterMap Transition.try_as_transfer,
        t.sender = tx.contractor) →
      ((tx.outputs.filterMap Transition.try_as_transfer).map Transfer.quantity).sum ≤
        (tx.inputs.map Transition.quantity).sum →
      (∀ t ∈ tx.inputs ++ tx.outputs, t.timestamp ≤ tx.timestamp) →
      ¬ sv tx.contractor tx.signature_source tx.sign = true →
      tx.verify_transaction sv = .error .InvalidSign) := by
  by_cases hP1 : tx.outputs = []
  · have hres : tx.verify_transaction sv = .error .EmptyOutput := by
      unfold Transaction.verify_transaction
      simp [hP1]
    rw [hres]
    refine ⟨⟨fun h => absurd h (by simp), fun h => absurd hP1 h.1⟩,
      fun _ => rfl, ?_, ?_, ?_, ?_, ?_⟩
    · exact fun h _ => absurd hP1 h
    · exact fun h _ _ => absurd hP1 h
    · exact fun h _ _ _ => absurd hP1 h
    · exact fun h _ _ _ _ => absurd hP1 h
    · exact fun h _ _ _ _ _ => absurd hP1 h
  · have g1 : tx.outputs.isEmpty = false := by
      cases hout : tx.outputs with
      | nil => exact absurd hout hP1
      | cons a l => rfl
    by_cases hP2 : ∀ i ∈ tx.inputs, i.receiver = tx.contractor
    · have g2 : (tx.inputs.any fun i => decide ¬ i.receiver = tx.contractor) = false := by
        cases hin : tx.inputs.any fun i => decide ¬ i.receiver = tx.contractor with
        | false => rfl
        | true =>
          simp only [List.any_eq_true, decide_eq_true_eq] at hin
          obtain ⟨i, hi, hne⟩ := hin
          exact absurd (hP2 i hi) hne
      by_cases hP3 : ∀ t ∈ tx.outputs.filterMap Transition.try_as_transfer,
          t.sender = tx.contractor
      · have g3 : ((tx.outputs.filterMap Transition.try_as_transfer).any
            fun t => decide ¬ t.sender = tx.contractor) = false := by
          cases hout : (tx.outputs.filterMap Transition.try_as_transfer).any
              fun t => decide ¬ t.sender = tx.contractor with
          | false => rfl
          | true =>
            simp only [List.any_eq_true, decide_eq_true_eq] at hout
            obtain ⟨t, ht, hne⟩ := hout
            exact absurd (hP3 t ht) hne
        by_cases hP4 : ((tx.outputs.filterMap Transition.try_as_transfer).map
            Transfer.quantity).sum ≤ (tx.inputs.map Transition.quantity).sum
        · have g4 : ¬ ((tx.inputs.map Transition.quantity).sum <
              ((tx.outputs.filterMap Transition.try_as_transfer).map
                Transfer.quantity).sum) := Nat.not_lt.mpr hP4
          by_cases hP5 : ∀ t ∈ tx.inputs ++ tx.outputs, t.timestamp ≤ tx.timestamp
          · have g5 : ((tx.inputs ++ tx.outputs).any
                fun t => decide (tx.timestamp < t.timestamp)) = false := by
              cases hts : (tx.inputs ++ tx.outputs).any
                  fun t => decide (tx.timestamp < t.timestamp) with
              | false => rfl
              | true =>
                simp only [List.any_eq_true, decide_eq_true_eq] at hts
                obtain ⟨t, ht, hlt⟩ := hts
                exact absurd (hP5 t ht) (not_le.mpr hlt)
            by_cases hP6 : sv tx.contractor tx.signature_source tx.sign = true
            · have hres : tx.verify_transaction sv = .ok tx := by
                unfold Transaction.verify_transaction
                simp only [g1, g2, g3, g5, hP6]
                simp only [Bool.and_false, Bool.not_true]
                simp [if_neg g4]
              rw [hres]
              refine ⟨⟨fun _ => ⟨hP1, hP2, hP3, hP4, hP5, hP6⟩, fun _ => rfl⟩,
                ?_, ?_, ?_, ?_, ?_, ?_⟩
              · exact fun h => absurd h hP1
              · exact fun _ h => absurd hP2 h
              · exact fun _ _ h => absurd hP3 h
              · exact fun _ _ _ h => absurd hP4 h
              · exact fun _ _ _ _ h => absurd hP5 h
              · exact fun _ _ _ _ _ h => absurd hP6 h
            · have hsv : sv tx.contractor tx.signature_source tx.sign = false := by
                cases h : sv tx.contractor tx.signature_source tx.sign with
                | false => rfl
                | true => exact absurd h hP6
              have hres : tx.verify_transaction sv = .error .InvalidSign := by
                unfold Transaction.verify_transaction
                simp only [g1, g2, g3, g5, hsv]
                simp only [Bool.and_false, Bool.not_false]
                simp [if_neg g4]
              rw [hres]
              refine ⟨⟨fun h => absurd h (by simp),
                fun h => absurd h.2.2.2.2.2 hP6⟩, ?_, ?_, ?_, ?_, ?_, ?_⟩
              · exact fun h => absurd h hP1
              · exact fun _ h => absurd hP2 h
              · exact fun _ _ h => absurd hP3 h
              · exact fun _ _ _ h => absurd hP4 h
              · exact fun _ _ _ _ h => absurd hP5 h
              · exact fun _ _ _ _ _ _ => rfl
          · have g5 : ((tx.inputs ++ tx.outputs).any
                fun t => decide (tx.timestamp < t.timestamp)) = true := by
              have hP5' := hP5
              push_neg at hP5'
              obtain ⟨t, ht, hlt⟩ := hP5'
              simp only [List.any_eq_true, decide_eq_true_eq]
              exact ⟨t, ht, hlt⟩
            have hres : tx.verify_transaction sv = .error .InvalidTimestamp := by
              unfold Transaction.verify_transaction
              simp only [g1, g2, g3, g5]
              simp only [Bool.and_false]
              simp [if_neg g4]
            rw [hres]
            refine ⟨⟨fun h => absurd h (by simp),
              fun h => absurd h.2.2.2.2.1 hP5⟩, ?_, ?_, ?_, ?_, ?_, ?_⟩
            · exact fun h => absurd h hP1
            · exact fun _ h => absurd hP2 h
            · exact fun _ _ h => absurd hP3 h
            · exact fun _ _ _ h => absurd hP4 h
            · exact fun _ _ _ _ _ => rfl
            · exact fun _ _ _ _ h _ => absurd h hP5
        · have g4 : (tx.inputs.map Transition.quantity).sum <
              ((tx.outputs.filterMap Transition.try_as_transfer).map
                Transfer.quantity).sum := Nat.not_le.mp hP4
          have hres : tx.verify_transaction sv = .error .QuantityMismatch := by
            unfold Transaction.verify_transaction
            simp only [g1, g2, g3]
            simp only [Bool.and_false]
            simp [if_pos g4]
          rw [hres]
          refine ⟨⟨fun h => absurd h (by simp),
            fun h => absurd h.2.2.2.1 hP4⟩, ?_, ?_, ?_, ?_, ?_, ?_⟩
          · exact fun h => absurd h hP1
          · exact fun _ h => absurd hP2 h
          · exact fun _ _ h => absurd hP3 h
          · exact fun _ _ _ _ => rfl
          · exact fun _ _ _ h _ => absurd h hP4
          · exact fun _ _ _ h _ _ => absurd h hP4
      · have g3 : ((tx.outputs.filterMap Transition.try_as_transfer).any
            fun t => decide ¬ t.sender = tx.contractor) = true := by
          have hP3' := hP3
          push_neg at hP3'
          obtain ⟨t, ht, hne⟩ := hP3'
          simp only [List.any_eq_true, decide_eq_true_eq]
          exact ⟨t, ht, hne⟩
        have hres : tx.verify_transaction sv = .error .ReceiverMismatch := by
          unfold Transaction.verify_transaction
          simp only [g1, g2, g3]
          simp
        rw [hres]
        refine ⟨⟨fun h => absurd h (by simp),
          fun h => absurd h.2.2.1 hP3⟩, ?_, ?_, ?_, ?_, ?_, ?_⟩
        · exact fun h => absurd h hP1
        · exact fun _ h => absurd hP2 h
        · exact fun _ _ _ => rfl
        · exact fun _ _ h _ => absurd h hP3
        · exact fun _ _ h _ _ => absurd h hP3
        · exact fun _ _ h _ _ _ => absurd h hP3
    · have hP2' := hP2
      push_neg at hP2'
      obtain ⟨i, hi, hne⟩ := hP2'
      have g2 : (tx.inputs.any fun i => decide ¬ i.receiver = tx.contractor) = true := by
        simp only [List.any_eq_true, decide_eq_true_eq]
        exact ⟨i, hi, hne⟩
      have g2' : tx.inputs.isEmpty = false := by
        cases hin : tx.inputs with
        | nil => rw [hin] at hi; exact absurd hi (List.not_mem_nil i)
        | cons a l => rfl
      have hres : tx.verify_transaction sv = .error .SenderMismatch := by
        unfold Transaction.verify_transaction
        simp only [g1, g2, g2']
        simp
      rw [hres]
      refine ⟨⟨fun h => absurd h (by simp),
        fun h => absurd h.2.1 hP2⟩, ?_, ?_, ?_, ?_, ?_, ?_⟩
      · exact fun h => absurd h hP1
      · exact fun _ _ => rfl
      · exact fun _ h _ => absurd h hP2
      · exact fun _ h _ _ => absurd h hP2
      · exact fun _ h _ _ _ => absurd h hP2
      · exact fun _ h _ _ _ _ => absurd h hP2

/-- C2 witness: the concrete transaction `tx7` passes all six checks under
the trivial oracle and is returned unchanged. -/
theorem verify_transaction_correct_witness :
    Transaction.verify_transaction triv_oracle tx7 = .ok tx7 :=
  (verify_transaction_correct triv_oracle tx7).1.mpr (by decide)

/-- C7 counterexample: the block `b7` passes stage T (every transaction
verifies) and stage TR (conservation holds under `R = fun _ => 1`), yet it
contains NO pure-coinbase transaction — the pipeline does not enforce the
claimed exactly-one-coinbase shape. -/
theorem pipeline_no_coinbase_uniqueness :
    Block.verify_transaction_itself triv_oracle b7 = .ok b7 ∧
    Block.verify_transaction_relation (fun _ => 1) b7 = .ok b7 ∧
    b7.transactions.countP Transaction.is_pure_coinbase = 0 :=
  ⟨rfl, rfl, by decide⟩

/-- C7 (amended): it is the MINER's assembly (`BlockSource::new`) that
guarantees the coinbase shape: if none of the supplied transactions is a
pure coinbase (and the reward computation does not underflow), the assembled
list contains exactly one pure coinbase — the appended generation
transaction, whose single Generation output carries quantity
`R(height) + Σ inputs − Σ outputs` over the supplied transactions. -/
theorem block_source_unique_coinbase (gen_rule : Nat → Coin) (height : Nat)
    (txs : List Transaction) (rr : Address) (stamp : Timestamp) (s : Sig)
    (hnc : ∀ tx ∈ txs, tx.is_pure_coinbase = false)
    (hq : txs_o_qty txs ≤ gen_rule height + txs_in_qty txs) :
    (block_source_transactions gen_rule height txs rr stamp s).countP
        Transaction.is_pure_coinbase = 1 ∧
    mk_generation_tx rr (gen_rule height + txs_in_qty txs - txs_o_qty txs) stamp s ∈
      block_source_transactions gen_rule height txs rr stamp s ∧
    (∀ tx ∈ block_source_transactions gen_rule height txs rr stamp s,
      tx.is_pure_coinbase = true →
      tx = mk_generation_tx rr
        (gen_rule height + txs_in_qty txs - txs_o_qty txs) stamp s ∧
      tx.outputs = [Transition.generation
        ⟨rr, gen_rule height + txs_in_qty txs - txs_o_qty txs, stamp, s⟩]) := by
  have hperm : (block_source_transactions gen_rule height txs rr stamp s).Perm
      (txs ++ [mk_generation_tx rr
        (gen_rule height + txs_in_qty txs - txs_o_qty txs) stamp s]) := by
    unfold block_source_transactions
    exact List.perm_insertionSort _ _
  have hgen : (mk_generation_tx rr
      (gen_rule height + txs_in_qty txs - txs_o_qty txs) stamp s).is_pure_coinbase
      = true := rfl
  refine ⟨?_, ?_, ?_⟩
  · rw [List.Perm.countP_eq _ hperm, List.countP_append]
    have h0 : txs.countP Transaction.is_pure_coinbase = 0 := by
      rw [List.countP_eq_zero]
      intro tx htx
      simp [hnc tx htx]
    rw [h0]
    simp [List.countP_cons, hgen]
  · exact (hperm.mem_iff).mpr (by simp)
  · intro tx htx hpure
    have hmem : tx ∈ txs ++ [mk_generation_tx rr
        (gen_rule height + txs_in_qty txs - txs_o_qty txs) stamp s] :=
      (hperm.mem_iff).mp htx
    rcases List.mem_append.mp hmem with hin | hone
    · rw [hnc tx hin] at hpure
      exact absurd hpure (by simp)
    · have heq : tx = mk_generation_tx rr
          (gen_rule height + txs_in_qty txs - txs_o_qty txs) stamp s := by
        simpa using hone
      refine ⟨heq, ?_⟩
      rw [heq]
      rfl

/-- C7 witness: with no supplied transactions the assembled block body is
exactly the one coinbase of quantity `R(0) = 1`. -/
theorem block_source_unique_coinbase_witness :
    (block_source_transactions (fun _ => 1) 0 [] 5 0 9).countP
        Transaction.is_pure_coinbase = 1 :=
  (block_source_unique_coinbase (fun _ => 1) 0 [] 5 0 9 (by decide) (by decide)).1

/-- A block containing two transactions that both spend `t_gen`: the only
source of `DoubleSpending` in `push_block` (intra-block duplicate input
signatures). -/
def block_dup : Block := ⟨1, [tx_n1, tx_n2], 20, [1], 0, 0, [4]⟩

/-- A block re-creating the already-live output `t_gen`. -/
def block_col : Block := ⟨1, [⟨1, [], [t_gen], 1, 103⟩], 20, [1], 0, 0, [5]⟩

/-- C8: evaluation of the UTXO replay at the spec's own scenario.  Replaying
N then N+1 consumes `t_gen`; a block that spends it again is rejected with
`Unlisted` — NOT the claimed `DoubleSpending`, which `push_block` reserves
for duplicated input signatures inside one block.  Worse, at the ledger
level the replay in `verify_block` walks only the ANCESTORS of the parent
(slab_tree `ancestors` excludes the parent itself), so the honest block N+1
spending its parent's output is rejected with `Utxo`, while the
double-spending block N+2 is ACCEPTED. -/
theorem utxo_replay_divergence :
    push_block [] block_n = .ok [t_gen] ∧
    push_block [t_gen] block_n1 = .ok [t_two] ∧
    push_block [t_two] block_n2 = .error .Unlisted ∧
    TransferHistoryError.Unlisted ≠ TransferHistoryError.DoubleSpending ∧
    push_block [t_gen] block_dup = .error .DoubleSpending ∧
    push_block [t_gen] block_col = .error .Collision ∧
    Ledger.verify_block ledger_n block_n1 = .error (.Block .Utxo) ∧
    Ledger.verify_block ledger_n1 block_n2 = .ok block_n2 :=
  ⟨rfl, rfl, rfl, by decide, rfl, rfl, rfl, rfl⟩

/-- Unfolding equation of `max_by_height` on a cons cell. -/
theorem max_by_height_cons (a : Block) (l : List Block) :
    max_by_height (a :: l) = match max_by_height l with
      | none => some a
      | some m => if a.height ≤ m.height then some m else some a := rfl

/-- Every nonempty block list has a last maximum under `max_by_height`
(Rust `max_by_key` semantics). -/
theorem max_by_height_is_max (bs : List Block) (h : bs ≠ []) :
    ∃ b, max_by_height bs = some b ∧ b ∈ bs ∧ ∀ x ∈ bs, x.height ≤ b.height := by
  induction bs with
  | nil => exact absurd rfl h
  | cons a l ih =>
    cases l with
    | nil =>
      refine ⟨a, rfl, List.mem_singleton_self a, ?_⟩
      intro x hx
      rw [List.mem_singleton] at hx
      subst hx
      exact le_refl _
    | cons c cs =>
      obtain ⟨m, hm, hmem, hmax⟩ := ih (by simp)
      simp only [max_by_height_cons, hm]
      by_cases hle : a.height ≤ m.height
      · rw [if_pos hle]
        refine ⟨m, rfl, List.mem_cons_of_mem a hmem, fun x hx => ?_⟩
        rcases List.mem_cons.mp hx with h1 | h2
        · subst h1; exact hle
        · exact hmax x h2
      · rw [if_neg hle]
        refine ⟨a, rfl, List.mem_cons_self a _, fun x hx => ?_⟩
        rcases List.mem_cons.mp hx with h1 | h2
        · subst h1; exact le_refl _
        · exact le_trans (hmax x h2) (le_of_not_le hle)

/-- C9 (amended): `search_latest_block` returns a block of maximum height
among the nodes enumerated by the digest map, for EVERY iteration order the
`HashMap` may present; which maximal block wins a tie depends on that
order. -/
theorem search_latest_block_correct (L : Ledger) (order : List Nat)
    (h : L.blocks_in_order order ≠ []) :
    ∃ b, L.search_latest_block order = some b ∧ b ∈ L.blocks_in_order order ∧
      ∀ x ∈ L.blocks_in_order order, x.height ≤ b.height :=
  max_by_height_is_max _ h

/-- C9 witness: on `ledger9` in the order `[0, 1]` the search returns a
maximal-height block. -/
theorem search_latest_block_correct_witness :
    ∃ b, Ledger.search_latest_block ledger9 [0, 1] = some b ∧
      b ∈ Ledger.blocks_in_order ledger9 [0, 1] ∧
      ∀ x ∈ Ledger.blocks_in_order ledger9 [0, 1], x.height ≤ b.height :=
  search_latest_block_correct ledger9 [0, 1] (by decide)

/-- C9 counterexample: `blk_a` and `blk_b` share the maximum height; two
iteration orders of the same digest-map contents (a permutation of each
other) make `search_latest_block` return different blocks, so the tie-break
is NOT a function of the ledger contents (and hence not insertion order). -/
theorem search_latest_block_order_dependent :
    Ledger.search_latest_block ledger9 [0, 1] = some blk_b ∧
    Ledger.search_latest_block ledger9 [1, 0] = some blk_a ∧
    blk_a ≠ blk_b ∧
    blk_a.height = blk_b.height ∧
    List.Perm [0, 1] [1, 0] :=
  ⟨rfl, rfl, by decide, rfl, by decide⟩

/-- C3: `Ledger.entry` — a genesis block is accepted (as root) exactly when
the tree is empty, else `DuplicatedGenesisBlock`; a non-genesis block needs a
parent found by `previous_digest` whose height is the previous height (else
`IsolatedBlock`) and no existing child with the same digest (else
`DuplicatedBlock`), and is then appended as a child; re-ingesting a block
that was just accepted yields `DuplicatedBlock`.  All error paths return
before the node list or digest map is touched, so the embedding returns the
ledger unchanged on error by construction. -/
theorem ledger_entry_correct (L : Ledger) (b : Block) :
    (b.height = 0 → L.rootId = none →
      Ledger.entry L b = .ok { L with
        nodes := ⟨L.nextId, none, b⟩ :: L.nodes
        rootId := some L.nextId
        digest_map := (b.digest, L.nextId) :: L.digest_map
        nextId := L.nextId + 1 }) ∧
    (b.height = 0 → L.rootId ≠ none →
      Ledger.entry L b = .error .DuplicatedGenesisBlock) ∧
    (∀ ph, heightPrevious b.height = some ph →
      (L.node_by_digest b.previous_digest = none →
        Ledger.entry L b = .error .IsolatedBlock) ∧
      (∀ p, L.node_by_digest b.previous_digest = some p →
        (p.block.height ≠ ph → Ledger.entry L b = .error .IsolatedBlock) ∧
        (p.block.height = ph →
          ((∃ c ∈ L.children p.id, c.block.digest = b.digest) →
            Ledger.entry L b = .error .DuplicatedBlock) ∧
          (¬ (∃ c ∈ L.children p.id, c.block.digest = b.digest) →
            Ledger.entry L b = .ok { L with
              nodes := ⟨L.nextId, some p.id, b⟩ :: L.nodes
              digest_map := (b.digest, L.nextId) :: L.digest_map
              nextId := L.nextId + 1 })))) ∧
    (∀ L', (∀ e ∈ L.nodes, e.id < L.nextId) → b.height ≠ 0 →
      b.digest ≠ b.previous_digest → Ledger.entry L b = .ok L' →
      Ledger.entry L' b = .error .DuplicatedBlock) := by
  refine ⟨?_, ?_, ?_, ?_⟩
  · intro h0 hroot
    unfold Ledger.entry
    simp [heightPrevious, h0, hroot]
  · intro h0 hroot
    cases hr : L.rootId with
    | none => exact absurd hr hroot
    | some r =>
      unfold Ledger.entry
      simp [heightPrevious, h0, hr]
  · intro ph hph
    constructor
    · intro hnone
      unfold Ledger.entry
      rw [hph, hnone]
    · intro p hp
      constructor
      · intro hne
        unfold Ledger.entry
        simp only [hph, hp]
        rw [if_pos hne]
      · intro heq
        constructor
        · intro hdup
          have hany : ((L.children p.id).any
              fun child => child.block.digest == b.digest) = true := by
            obtain ⟨c, hc, hcd⟩ := hdup
            simp only [List.any_eq_true]
            exact ⟨c, hc, by simp [hcd]⟩
          unfold Ledger.entry
          simp only [hph, hp]
          rw [if_neg (not_not_intro heq), if_pos hany]
        · intro hndup
          have hany : ¬ (((L.children p.id).any
              fun child => child.block.digest == b.digest) = true) := by
            intro h
            simp only [List.any_eq_true] at h
            obtain ⟨c, hc, hcd⟩ := h
            exact hndup ⟨c, hc, by simpa using hcd⟩
          unfold Ledger.entry
          simp only [hph, hp]
          rw [if_neg (not_not_intro heq), if_neg hany]
  · intro L' hfresh hne0 hdig hok
    have hph : heightPrevious b.height = some (b.height - 1) := by
      unfold heightPrevious
      rw [if_neg hne0]
    unfold Ledger.entry at hok
    simp only [hph] at hok
    cases hnd : L.node_by_digest b.previous_digest with
    | none =>
      simp only [hnd] at hok
      exact absurd hok (by simp)
    | some p =>
      simp only [hnd] at hok
      by_cases hh : p.block.height ≠ b.height - 1
      · rw [if_pos hh] at hok
        exact absurd hok (by simp)
      · rw [if_neg hh] at hok
        by_cases hdup : ((L.children p.id).any
            fun child => child.block.digest == b.digest) = true
        · rw [if_pos hdup] at hok
          exact absurd hok (by simp)
        · rw [if_neg hdup] at hok
          have hL' : L' = { L with
              nodes := ⟨L.nextId, some p.id, b⟩ :: L.nodes
              digest_map := (b.digest, L.nextId) :: L.digest_map
              nextId := L.nextId + 1 } := by
            injection hok with h
            exact h.symm
          subst hL'
          obtain ⟨id0, hid0, hpid⟩ : ∃ id0,
              L.digest_map.lookup b.previous_digest = some id0 ∧
              L.node_by_id id0 = some p := by
            unfold Ledger.node_by_digest at hnd
            cases hl : L.digest_map.lookup b.previous_digest with
            | none => rw [hl] at hnd; simp at hnd
            | some i => rw [hl] at hnd; exact ⟨i, rfl, hnd⟩
          have hpid' := hpid
          unfold Ledger.node_by_id at hpid'
          have hpmem : p ∈ L.nodes := List.mem_of_find?_eq_some hpid'
          have hpid_eq : p.id = id0 := by
            have h2 := List.find?_some hpid'
            simpa using h2
          have hplt : id0 < L.nextId := hpid_eq ▸ hfresh p hpmem
          have hnd' : Ledger.node_by_digest { L with
              nodes := ⟨L.nextId, some p.id, b⟩ :: L.nodes
              digest_map := (b.digest, L.nextId) :: L.digest_map
              nextId := L.nextId + 1 } b.previous_digest = some p := by
            unfold Ledger.node_by_digest Ledger.node_by_id
            have hkey : (b.previous_digest == b.digest) = false := by
              rw [beq_eq_false_iff_ne]
              exact Ne.symm hdig
            have hhead : ((L.nextId : Nat) == id0) = false := by
              rw [beq_eq_false_iff_ne]
              exact Nat.ne_of_gt hplt
            simp only [List.lookup, hkey, hid0, Option.some_bind, List.find?, hhead]
            exact hpid'
          unfold Ledger.entry
          simp only [hph, hnd']
          rw [if_neg hh]
          have hchild : (((Ledger.children { L with
              nodes := ⟨L.nextId, some p.id, b⟩ :: L.nodes
              digest_map := (b.digest, L.nextId) :: L.digest_map
              nextId := L.nextId + 1 } p.id)).any
              fun child => child.block.digest == b.digest) = true := by
            unfold Ledger.children
            simp only [List.any_eq_true]
            refine ⟨⟨L.nextId, some p.id, b⟩, ?_, by simp⟩
            refine List.mem_filter.mpr ⟨List.mem_cons_self _ _, by simp⟩
          rw [if_pos hchild]

/-- C3 witness: entering the genesis block of the scenario into the empty
ledger succeeds and produces exactly `ledger_n`. -/
theorem ledger_entry_correct_witness :
    Ledger.entry Ledger.new block_n = .ok ledger_n :=
  (ledger_entry_correct Ledger.new block_n).1 rfl rfl

/-- C10: `Ledger.verify_block` settles the previous-block stage purely from
the parent found by `previous_digest` and the height equality (genesis iff no
such node); no timestamp comparison occurs — the whole verification result
is invariant under changing the block's timestamp — and concretely a
non-genesis block whose timestamp is BELOW its parent's passes `verify_block`
and enters the ledger via `entry`. -/
theorem ledger_verify_block_ignores_timestamps :
    (∀ (L : Ledger) (b : Block) (t : Timestamp),
      Ledger.verify_block L { b with timestamp := t } =
        Except.map (fun _ => { b with timestamp := t })
          (Ledger.verify_block L b)) ∧
    (∀ (L : Ledger) (b : Block),
      (Ledger.previous_block_judge L b = true ↔
        ((heightPrevious b.height = none ∧
            L.node_by_digest b.previous_digest = none) ∨
         (∃ ph p, heightPrevious b.height = some ph ∧
            L.node_by_digest b.previous_digest = some p ∧
            p.block.height = ph))) ∧
      (Ledger.previous_block_judge L b = false →
        Ledger.verify_block L b = .error (.Block .Chain))) ∧
    (Ledger.verify_block ledger10 b10 = .ok b10 ∧
      (Ledger.entry ledger10 b10).isOk = true ∧
      b10.timestamp ≤ g10.timestamp ∧ b10.height = g10.height + 1 ∧
      b10.previous_digest = g10.digest) := by
  refine ⟨?_, ?_, rfl, by decide, by decide, rfl, rfl⟩
  · intro L b t
    have hj0 : Ledger.previous_block_judge L { b with timestamp := t } =
        Ledger.previous_block_judge L b := rfl
    have hpd : ({ b with timestamp := t } : Block).previous_digest =
        b.previous_digest := rfl
    have htx : ({ b with timestamp := t } : Block).transactions =
        b.transactions := rfl
    simp only [Ledger.verify_block, Block.verify_utxo, hj0, hpd, htx]
    by_cases hj : (!Ledger.previous_block_judge L b) = true
    · rw [if_pos hj, if_pos hj]
      rfl
    · rw [if_neg hj, if_neg hj]
      cases hnd : L.node_by_digest b.previous_digest with
      | none =>
        cases hr : Ledger.replay_blocks [] ([] : List Block) with
        | error e => rfl
        | ok history =>
          by_cases hu : utxo_judge history b.transactions = true
          · simp [Except.map, hu]
          · simp [Except.map, hu]
      | some e =>
        cases hr : Ledger.replay_blocks []
            ((L.ancestor_blocks L.nodes.length e.parentId).reverse) with
        | error er => rfl
        | ok history =>
          by_cases hu : utxo_judge history b.transactions = true
          · simp [Except.map, hu]
          · simp [Except.map, hu]
  · intro L b
    constructor
    · unfold Ledger.previous_block_judge
      cases hh : heightPrevious b.height with
      | none =>
        cases hnd : L.node_by_digest b.previous_digest with
        | none => simp [hh, hnd]
        | some p => simp [hh, hnd]
      | some ph =>
        cases hnd : L.node_by_digest b.previous_digest with
        | none => simp [hh, hnd]
        | some p => simp [hh, hnd]
    · intro hfalse
      unfold Ledger.verify_block
      rw [if_pos (by rw [hfalse]; rfl)]

/-- C10 witness: a block whose previous digest names no node fails the chain
judge, so `verify_block` rejects it with `Chain` — established through the
main theorem's error case. -/
theorem ledger_verify_block_ignores_timestamps_witness :
    Ledger.verify_block ledger10 b10_bad = .error (.Block .Chain) :=
  (ledger_verify_block_ignores_timestamps.2.1 ledger10 b10_bad).2 rfl

end BlockchainScratch
